import Mathlib

/-!
Verification of the pokegrid-solver core: a shallow embedding of the
constraint-evaluation engine (`constraints.py`), the metadata derivations
(`pokeapi_constants.py`), the grid solver (`solver.py`) and the random
ranking strategy (`strategy.py`), together with proofs of the behavioural
properties stated in the specification.

Conventions of the embedding:
* The remote data source (the aiopoke client) is modelled as a structure of
  total query functions; entity sets are `Finset String` (Python `set`).
* Python floats are modelled as exact rationals; where rounding matters
  (the unit-conversion round trip) every arithmetic result is passed through
  `roundD`, the round-to-nearest, ties-to-even rounding at 53 significant
  bits that finite IEEE-754 doubles perform.
* Fallible operations return `Except String` mirroring raised `ValueError`s.
-/

/-- The damage-relation lists of an attacking type, as returned by
`client.get_type(...).damage_relations`: names of the defending types that
take no / half / double damage from it. -/
structure DamageRelations where
  no_damage_to : List String
  half_damage_to : List String
  double_damage_to : List String

/-- Shallow model of the PokeAPI data source.  `types` is the full type
roster (`PokeAPIConstants.pokemon_types`), `typeMembers t` is the entity set
of type `t` (`PokemonHasType(t).determine_pkmn_set`, i.e. the names listed
on the type resource), and `damage t` is the damage-relation table of `t`. -/
structure Client where
  types : List String
  typeMembers : String → Finset String
  damage : String → DamageRelations

/-- `PokemonHasType(type_constraint).determine_pkmn_set`: the set of entities
whose type list contains the given type, read off the type resource. -/
def PokemonHasType.determine_pkmn_set (client : Client) (type_constraint : String) :
    Finset String :=
  client.typeMembers type_constraint

/-- The `Counter` accumulation shared by the three type-effectiveness
constraints: `for s in sets: for p in s: counts[p] += 1`, where `sets` holds
one membership set per type name in `ts`.  The count of `p` is the number of
entries of `ts` whose membership set contains `p`. -/
def typeListCount (client : Client) (ts : List String) (p : String) : ℕ :=
  ts.countP (fun t => decide (p ∈ PokemonHasType.determine_pkmn_set client t))

/-- `immune_counts[p]` for attacking type `atk`. -/
def immuneCount (client : Client) (atk p : String) : ℕ :=
  typeListCount client (client.damage atk).no_damage_to p

/-- `resist_counts[p]` for attacking type `atk`. -/
def resistCount (client : Client) (atk p : String) : ℕ :=
  typeListCount client (client.damage atk).half_damage_to p

/-- `weak_counts[p]` for attacking type `atk`. -/
def weakCount (client : Client) (atk p : String) : ℕ :=
  typeListCount client (client.damage atk).double_damage_to p

/-- Union of the membership sets of a list of type names. -/
def unionOfTypes (client : Client) (ts : List String) : Finset String :=
  ts.foldr (fun t acc => PokemonHasType.determine_pkmn_set client t ∪ acc) ∅

/-- `universe = set(immune_counts) | set(resist_counts) | set(weak_counts)`:
every entity appearing in any membership set of any type named in the three
damage-relation lists of the attacking type. -/
def relationUniverse (client : Client) (atk : String) : Finset String :=
  unionOfTypes client (client.damage atk).no_damage_to ∪
    unionOfTypes client (client.damage atk).half_damage_to ∪
    unionOfTypes client (client.damage atk).double_damage_to

/-- The full entity catalog used by `PokemonNeutralToType`: the union of the
membership sets of every type in the roster. -/
def universeAll (client : Client) : Finset String :=
  unionOfTypes client client.types

/-- The float expression `(0.5 ** resist_count) * (2.0 ** weak_count)`.
Every value involved is a power of two, hence exactly representable as an
IEEE-754 double for the count ranges that occur, so the exact rational value
coincides with the float value. -/
def modifier (resist_count weak_count : ℕ) : ℚ :=
  (1 / 2 : ℚ) ^ resist_count * (2 : ℚ) ^ weak_count

/-- `PokemonResistantToType(resistant_to).determine_pkmn_set`: over the
relation universe, an entity with any immunity is added (`0x` overall), and
otherwise it is added iff its overall multiplier is `< 1.0`. -/
def PokemonResistantToType.determine_pkmn_set (client : Client) (resistant_to : String) :
    Finset String :=
  (relationUniverse client resistant_to).filter (fun p =>
    if 0 < immuneCount client resistant_to p then True
    else modifier (resistCount client resistant_to p) (weakCount client resistant_to p) < 1)

/-- `PokemonWeakToType(weak_to).determine_pkmn_set`: over the relation
universe, entities with any immunity are skipped, and otherwise an entity is
added iff `weak_counts[p] > resist_counts[p]`. -/
def PokemonWeakToType.determine_pkmn_set (client : Client) (weak_to : String) :
    Finset String :=
  (relationUniverse client weak_to).filter (fun p =>
    if 0 < immuneCount client weak_to p then False
    else weakCount client weak_to p > resistCount client weak_to p)

/-- `PokemonNeutralToType(neutral_to).determine_pkmn_set`: over the full
catalog universe, entities with any immunity are skipped, and otherwise an
entity is added iff `weak_counts[p] == resist_counts[p]`. -/
def PokemonNeutralToType.determine_pkmn_set (client : Client) (neutral_to : String) :
    Finset String :=
  (universeAll client).filter (fun p =>
    if 0 < immuneCount client neutral_to p then False
    else weakCount client neutral_to p = resistCount client neutral_to p)

/-- A small concrete data source: two types, `"normal"` dealing no damage to
`"ghost"`, with one entity of each type. -/
def exampleClient : Client :=
  ⟨["normal", "ghost"],
   fun t => if t = "ghost" then {"gastly"} else if t = "normal" then {"rattata"} else ∅,
   fun t => if t = "normal" then ⟨["ghost"], [], []⟩ else ⟨[], [], []⟩⟩

/-- One entry of the `stats` array of a pokemon resource: the stat's name
(`stat.stat.name`) and its base value (`stat.base_stat`). -/
structure PokemonStat where
  name : String
  base_stat : ℕ
deriving DecidableEq

/-- A pokemon resource restricted to the fields `highest_base_stats` reads. -/
structure Pokemon where
  name : String
  stats : List PokemonStat
deriving DecidableEq

/-- The canonical base-stat names in the order of their indices in
`STAT_NAME_TO_INDICES` (and of the `stats` array of a pokemon resource). -/
def statNames : List String :=
  ["hp", "attack", "defense", "special-attack", "special-defense", "speed"]

/-- The module-level dict `STAT_NAME_TO_INDICES`; an unknown stat name
raises `KeyError`, modelled as `none`. -/
def STAT_NAME_TO_INDICES (stat_name : String) : Option ℕ :=
  if stat_name = "hp" then some 0
  else if stat_name = "attack" then some 1
  else if stat_name = "defense" then some 2
  else if stat_name = "special-attack" then some 3
  else if stat_name = "special-defense" then some 4
  else if stat_name = "speed" then some 5
  else none

/-- The per-species loop body of `highest_base_stats`: `stat_to_beat` is the
base value at the dict index; a same-named stat is skipped (`continue`), and
any other stat with `base_stat > stat_to_beat or base_stat == stat_to_beat`
clears the `is_highest` flag.  `species.stats[index]` is modelled with
`getD`; the Python `IndexError` case is excluded by the well-formedness
hypotheses of the theorems below. -/
def is_highest (stat_name : String) (index : ℕ) (species : Pokemon) : Bool :=
  let stat_to_beat := (species.stats.getD index ⟨"", 0⟩).base_stat
  species.stats.all (fun stat =>
    if stat.name = stat_name then true
    else !(decide (stat.base_stat > stat_to_beat) || stat.base_stat == stat_to_beat))

/-- `PokeAPIConstants.highest_base_stats(stat_name)` over the full catalog:
the names, in catalog order, of the species whose `is_highest` flag
survives the loop. -/
def highest_base_stats (all_species : List Pokemon) (stat_name : String) :
    Option (List String) :=
  (STAT_NAME_TO_INDICES stat_name).map (fun index =>
    (all_species.filter (fun species => is_highest stat_name index species)).map Pokemon.name)

/-- A species whose first-listed stat (`hp`) strictly exceeds all its other
base stats. -/
def examplePokemon : Pokemon :=
  ⟨"blissey", [⟨"hp", 255⟩, ⟨"attack", 10⟩, ⟨"defense", 10⟩, ⟨"special-attack", 75⟩,
    ⟨"special-defense", 135⟩, ⟨"speed", 55⟩]⟩

/-- A one-species catalog for concrete instantiations. -/
def exampleCatalog : List Pokemon := [examplePokemon]

/-- A node of an evolution-chain tree: a species name and the list of next
evolutionary stages (`node.species.name` / `node.evolves_to`). -/
inductive EvoNode where
  | node (species : String) (evolves_to : List EvoNode)

/-- The species name at a chain node. -/
def EvoNode.species : EvoNode → String
  | .node s _ => s

/-- The child stages of a chain node. -/
def EvoNode.evolves_to : EvoNode → List EvoNode
  | .node _ c => c

/-- `_collect_paths(node, cur, out)`: every root-to-leaf path of the tree,
each extending the accumulator `cur` by the node names along one branch. -/
def collectPaths (node : EvoNode) (cur : List String) : List (List String) :=
  match node with
  | .node name children =>
    if children.isEmpty then [cur ++ [name]]
    else children.attach.flatMap (fun c => collectPaths c.1 (cur ++ [name]))
termination_by node
decreasing_by
  simp only [EvoNode.node.sizeOf_spec]
  have hs := List.sizeOf_lt_of_mem c.2
  omega

/-- The four role sets computed by `_classify_evolution_roles`. -/
structure EvoRoles where
  first : Finset String
  middle : Finset String
  final : Finset String
  no_evolutions : Finset String

/-- `{p[0] for p in paths}`. -/
def firstsOfPaths (paths : List (List String)) : Finset String :=
  paths.foldr (fun p acc => insert p.headI acc) ∅

/-- `{p[-1] for p in paths}`. -/
def finalsOfPaths (paths : List (List String)) : Finset String :=
  paths.foldr (fun p acc => insert (p.getLastD "") acc) ∅

/-- `middle.update(p[1:-1]) for every p with len(p) > 2`. -/
def middlesOfPaths (paths : List (List String)) : Finset String :=
  paths.foldr
    (fun p acc => (if 2 < p.length then ((p.drop 1).dropLast).toFinset else ∅) ∪ acc) ∅

/-- `evolution_roles(evo_chain)`: a single-species chain is classified into
`no_evolutions` exclusively; otherwise the heads, last elements and (for
paths of length > 2) interiors of all root-to-leaf paths form the first,
final and middle sets. -/
def evolution_roles (chain : EvoNode) : EvoRoles :=
  let paths := collectPaths chain []
  if paths.length = 1 ∧ paths.headI.length = 1 then
    ⟨∅, ∅, ∅, {paths.headI.headI}⟩
  else
    ⟨firstsOfPaths paths, middlesOfPaths paths, finalsOfPaths paths, ∅⟩

/-- One iteration of the classification loop: `first_all |= roles["first"]`
and likewise for the other three sets. -/
def roleStep (acc : EvoRoles) (chain : EvoNode) : EvoRoles :=
  ⟨acc.first ∪ (evolution_roles chain).first,
   acc.middle ∪ (evolution_roles chain).middle,
   acc.final ∪ (evolution_roles chain).final,
   acc.no_evolutions ∪ (evolution_roles chain).no_evolutions⟩

/-- `PokeAPIConstants._classify_evolution_roles` over the full catalog of
evolution chains: union of the per-chain role sets. -/
def classify_evolution_roles (chains : List EvoNode) : EvoRoles :=
  chains.foldl roleStep ⟨∅, ∅, ∅, ∅⟩

/-- The comparison key `(-score, name)` used to sort rankings: strictly
higher score first, ties broken by ascending name.  The relation is total,
transitive and antisymmetric, so the sorted permutation of a list is unique
and Python's stable `list.sort` coincides with `List.insertionSort`. -/
def rankLE (a b : String × ℚ) : Prop :=
  b.2 < a.2 ∨ (a.2 = b.2 ∧ a.1 ≤ b.1)

instance : DecidableRel rankLE := fun a b =>
  inferInstanceAs (Decidable (b.2 < a.2 ∨ (a.2 = b.2 ∧ a.1 ≤ b.1)))

instance : IsTotal (String × ℚ) rankLE :=
  ⟨fun a b => by
    rw [rankLE, rankLE]
    rcases lt_trichotomy a.2 b.2 with h | h | h
    · exact Or.inr (Or.inl h)
    · rcases le_total a.1 b.1 with hs | hs
      · exact Or.inl (Or.inr ⟨h, hs⟩)
      · exact Or.inr (Or.inr ⟨h.symm, hs⟩)
    · exact Or.inl (Or.inl h)⟩

instance : IsTrans (String × ℚ) rankLE :=
  ⟨fun a b c hab hbc => by
    rw [rankLE] at hab hbc ⊢
    rcases hab with h1 | ⟨h1, h1s⟩ <;> rcases hbc with h2 | ⟨h2, h2s⟩
    · exact Or.inl (h2.trans h1)
    · exact Or.inl (lt_of_eq_of_lt h2.symm h1)
    · exact Or.inl (lt_of_lt_of_eq h2 h1.symm)
    · exact Or.inr ⟨h1.trans h2, h1s.trans h2s⟩⟩

/-- `RandomPokegridStrategy.rank_options`: pair every candidate, taken in
ascending (sorted) order, with the next draw `rng i` of a fresh random
generator, then sort by `(-score, name)`.  The draws of `random.random()`
are modelled as an arbitrary stream of rationals (doubles in `[0,1)` are
exact rationals; none of the properties proved below depend on the range). -/
def RandomPokegridStrategy.rank_options (rng : ℕ → ℚ) (available_pokemon : Finset String) :
    List (String × ℚ) :=
  let ranking := ((available_pokemon.sort (· ≤ ·)).enum).map (fun x => (x.2, rng x.1))
  ranking.insertionSort rankLE

/-- A constraint is anything that can compute its matching entity set
against the data source; a failing data fetch raises, modelled as
`Except.error`. -/
abbrev Constraint := Client → Except String (Finset String)

/-- A ranking strategy: `rank_options` as a function of the candidate set. -/
abbrev Strategy := Finset String → List (String × ℚ)

/-- The grid solver's state: three row constraints, three column
constraints, the strategy, the mutable chosen set (initially empty) and the
data-source handle. -/
structure PokegridSolver where
  row_constraints : List Constraint
  column_constraints : List Constraint
  strategy : Strategy
  selected_pokemon : Finset String
  client : Client

/-- `PokegridSolver.__init__`: raises `ValueError` unless exactly 3 row and
3 column constraints are supplied; starts with an empty chosen set. -/
def PokegridSolver.init (row_constraints column_constraints : List Constraint)
    (strategy : Strategy) (client : Client) : Except String PokegridSolver :=
  if row_constraints.length ≠ 3 then .error "Did not provide 3 row constraints"
  else if column_constraints.length ≠ 3 then .error "Did not provide 3 column constraints"
  else .ok ⟨row_constraints, column_constraints, strategy, ∅, client⟩

/-- The candidate pool of a cell, given the two constraint results:
`(row_set & col_set) - self.selected_pokemon`. -/
def PokegridSolver.possible_pokemon (self : PokegridSolver) (rowSet colSet : Finset String) :
    Finset String :=
  (rowSet ∩ colSet) \ self.selected_pokemon

/-- Out-of-range list access never happens after the index checks; this
placeholder makes `getD` total. -/
def defaultConstraint : Constraint := fun _ => .error "missing constraint"

/-- `PokegridSolver.suggest_for_constraint`: validates both cell indices
(raising `ValueError` before any constraint is evaluated), evaluates the row
then the column constraint, intersects, removes chosen entities, ranks with
the strategy, and returns the first `top_n` ranked entries together with
the candidate-pool size. -/
def PokegridSolver.suggest_for_constraint (self : PokegridSolver) (row_idx col_idx : ℤ)
    (top_n : ℕ) : Except String (List (String × ℚ) × ℕ) :=
  if row_idx < 0 ∨ row_idx > 2 then .error "row_idx needs to be between 0 and 2"
  else if col_idx < 0 ∨ col_idx > 2 then .error "col_idx needs to be between 0 and 2"
  else
    let row_constraint := self.row_constraints.getD row_idx.toNat defaultConstraint
    let col_constraint := self.column_constraints.getD col_idx.toNat defaultConstraint
    match row_constraint self.client, col_constraint self.client with
    | .error e, _ => .error e
    | .ok _, .error e => .error e
    | .ok rowSet, .ok colSet =>
      let ranked_pokemon := self.strategy (self.possible_pokemon rowSet colSet)
      .ok (ranked_pokemon.take top_n, (self.possible_pokemon rowSet colSet).card)

/-- State-passing form of `suggest_for_constraint`.  The Python method body
assigns to no field of `self`, so the translated post-state is the input
state unchanged. -/
def PokegridSolver.suggest_for_constraintS (self : PokegridSolver) (row_idx col_idx : ℤ)
    (top_n : ℕ) : (Except String (List (String × ℚ) × ℕ)) × PokegridSolver :=
  (self.suggest_for_constraint row_idx col_idx top_n, self)

/-- `PokegridSolver.choose_pokemon`: `self.selected_pokemon.add(name)`. -/
def PokegridSolver.choose_pokemon (self : PokegridSolver) (name : String) : PokegridSolver :=
  ⟨self.row_constraints, self.column_constraints, self.strategy,
   insert name self.selected_pokemon, self.client⟩

/-- A constraint returning a fixed set (test fixture for instantiations). -/
def constConstraint (s : Finset String) : Constraint := fun _ => .ok s

/-- A concrete solver: row sets `{"a","b","c"}`, column sets
`{"b","c","d"}`, the random strategy with a constant stream, nothing chosen. -/
def exampleSolver : PokegridSolver :=
  ⟨[constConstraint {"a", "b", "c"}, constConstraint {"a", "b", "c"},
      constConstraint {"a", "b", "c"}],
   [constConstraint {"b", "c", "d"}, constConstraint {"b", "c", "d"},
      constConstraint {"b", "c", "d"}],
   RandomPokegridStrategy.rank_options (fun _ => 0), ∅, exampleClient⟩

/-- Round a positive rational to 53 significant bits, round-to-nearest with
ties to even: the rounding a finite IEEE-754 double performs on every
arithmetic result (overflow and subnormals never arise for the values of
the unit conversions). -/
def roundPos (q : ℚ) : ℚ :=
  let e : ℤ := Int.log 2 q
  let scaled : ℚ := q * (2 : ℚ) ^ (52 - e)
  let n : ℤ := ⌊scaled⌋
  let m : ℤ :=
    if 1 / 2 < scaled - (n : ℚ) then n + 1
    else if scaled - (n : ℚ) < 1 / 2 then n
    else if n % 2 = 0 then n else n + 1
  (m : ℚ) * (2 : ℚ) ^ (e - 52)

/-- IEEE-754 double rounding on exact rational values. -/
def roundD (q : ℚ) : ℚ :=
  if q = 0 then 0 else if q < 0 then -(roundPos (-q)) else roundPos q

/-- `ftinches2decimeters`: `total_inches = feet * 12 + inches` (exact for
the integral arguments used), then `total_inches * 0.254` in doubles — the
literal `0.254` is itself the rounded double. -/
def ftinches2decimeters (feet inches : ℚ) : ℚ :=
  let total_inches := roundD (feet * 12 + inches)
  roundD (total_inches * roundD (254 / 1000))

/-- `decimeters2ftinches`: `total_inches = dm * 3.937007874015748` in
doubles, `feet = int(total_inches // 12)` (exact floor of the quotient),
`inches = total_inches - feet * 12` in doubles, with the carry branch
`if inches >= 12`. -/
def decimeters2ftinches (dm : ℚ) : ℤ × ℚ :=
  let total_inches := roundD (dm * roundD (3937007874015748 / 1000000000000000))
  let feet : ℤ := ⌊total_inches / 12⌋
  let inches := roundD (total_inches - (feet : ℚ) * 12)
  if 12 ≤ inches then (feet + 1, 0) else (feet, inches)

theorem mem_unionOfTypes {client : Client} {ts : List String} {p : String} :
    p ∈ unionOfTypes client ts ↔
      ∃ t ∈ ts, p ∈ PokemonHasType.determine_pkmn_set client t := by
  induction ts with
  | nil => simp [unionOfTypes]
  | cons t ts ih =>
    simp only [unionOfTypes, List.foldr_cons, Finset.mem_union, List.mem_cons] at ih ⊢
    constructor
    · rintro (h | h)
      · exact ⟨t, Or.inl rfl, h⟩
      · obtain ⟨u, hu, hpu⟩ := ih.mp h
        exact ⟨u, Or.inr hu, hpu⟩
    · rintro ⟨u, (rfl | hu), hpu⟩
      · exact Or.inl hpu
      · exact Or.inr (ih.mpr ⟨u, hu, hpu⟩)

theorem typeListCount_pos {client : Client} {ts : List String} {p : String} :
    0 < typeListCount client ts p ↔ p ∈ unionOfTypes client ts := by
  rw [typeListCount, List.countP_pos_iff, mem_unionOfTypes]
  simp

theorem modifier_lt_one {resist_count weak_count : ℕ} :
    modifier resist_count weak_count < 1 ↔ weak_count < resist_count := by
  have h2 : (0 : ℚ) < 2 ^ resist_count := pow_pos (by norm_num) _
  rw [modifier, div_pow, one_pow, div_mul_eq_mul_div, one_mul, div_lt_one h2]
  exact pow_lt_pow_iff_right₀ (by norm_num)

theorem mem_resistant {client : Client} {atk p : String} :
    p ∈ PokemonResistantToType.determine_pkmn_set client atk ↔
      p ∈ relationUniverse client atk ∧
        (0 < immuneCount client atk p ∨ weakCount client atk p < resistCount client atk p) := by
  rw [PokemonResistantToType.determine_pkmn_set, Finset.mem_filter]
  by_cases h : 0 < immuneCount client atk p
  · simp [h]
  · simp [h, modifier_lt_one]

theorem mem_weak {client : Client} {atk p : String} :
    p ∈ PokemonWeakToType.determine_pkmn_set client atk ↔
      p ∈ relationUniverse client atk ∧ immuneCount client atk p = 0 ∧
        resistCount client atk p < weakCount client atk p := by
  rw [PokemonWeakToType.determine_pkmn_set, Finset.mem_filter]
  constructor
  · rintro ⟨hu, hpred⟩
    split at hpred
    · exact hpred.elim
    · rename_i h
      exact ⟨hu, by omega, hpred⟩
  · rintro ⟨hu, hic, hlt⟩
    refine ⟨hu, ?_⟩
    rw [if_neg (by omega)]
    exact hlt

theorem mem_neutral {client : Client} {atk p : String} :
    p ∈ PokemonNeutralToType.determine_pkmn_set client atk ↔
      p ∈ universeAll client ∧ immuneCount client atk p = 0 ∧
        weakCount client atk p = resistCount client atk p := by
  rw [PokemonNeutralToType.determine_pkmn_set, Finset.mem_filter]
  constructor
  · rintro ⟨hu, hpred⟩
    split at hpred
    · exact hpred.elim
    · rename_i h
      exact ⟨hu, by omega, hpred⟩
  · rintro ⟨hu, hic, heq⟩
    refine ⟨hu, ?_⟩
    rw [if_neg (by omega)]
    exact heq

theorem immuneCount_pos_mem_relationUniverse {client : Client} {atk p : String}
    (h : 0 < immuneCount client atk p) : p ∈ relationUniverse client atk := by
  rw [relationUniverse, Finset.mem_union, Finset.mem_union]
  exact Or.inl (Or.inl (typeListCount_pos.mp h))

theorem resistCount_pos_mem_relationUniverse {client : Client} {atk p : String}
    (h : 0 < resistCount client atk p) : p ∈ relationUniverse client atk := by
  rw [relationUniverse, Finset.mem_union, Finset.mem_union]
  exact Or.inl (Or.inr (typeListCount_pos.mp h))

theorem weakCount_pos_mem_relationUniverse {client : Client} {atk p : String}
    (h : 0 < weakCount client atk p) : p ∈ relationUniverse client atk := by
  rw [relationUniverse, Finset.mem_union]
  exact Or.inr (typeListCount_pos.mp h)

theorem relationUniverse_subset_universeAll {client : Client} {atk : String}
    (hwf : ∀ t ∈ (client.damage atk).no_damage_to ++ (client.damage atk).half_damage_to ++
      (client.damage atk).double_damage_to, t ∈ client.types) :
    relationUniverse client atk ⊆ universeAll client := by
  intro p hp
  rw [relationUniverse, Finset.mem_union, Finset.mem_union] at hp
  rw [universeAll, mem_unionOfTypes]
  rcases hp with (h | h) | h <;> obtain ⟨t, ht, hpt⟩ := mem_unionOfTypes.mp h
  · exact ⟨t, hwf t (by simp [ht]), hpt⟩
  · exact ⟨t, hwf t (by simp [ht]), hpt⟩
  · exact ⟨t, hwf t (by simp [ht]), hpt⟩

/-- C1, counterexample to the claim as stated: in `exampleClient`, the entity
`"gastly"` has a positive immune count against the attacking type `"normal"`
and nevertheless IS a member of `PokemonResistantToType("normal")`'s result
set, because `determine_pkmn_set` adds every entity with any immunity to the
resistant set (`# Any immunity yields 0x overall`). -/
theorem C1_counterexample :
    0 < immuneCount exampleClient "normal" "gastly" ∧
      "gastly" ∈ PokemonResistantToType.determine_pkmn_set exampleClient "normal" := by
  decide

/-- C1 (amended): for every attacking type `T` whose damage-relation lists
name only types of the roster, the result sets of `ResistantToType(T)`,
`WeakToType(T)` and `NeutralToType(T)` are pairwise disjoint and their union
is the full entity catalog; an entity with any immunity to `T` is a member
of `ResistantToType(T)`'s result set (its multiplier 0 is `< 1.0`) and of
neither `WeakToType(T)`'s nor `NeutralToType(T)`'s. -/
theorem C1_partition (client : Client) (T : String)
    (hwf : ∀ t ∈ (client.damage T).no_damage_to ++ (client.damage T).half_damage_to ++
      (client.damage T).double_damage_to, t ∈ client.types) :
    (PokemonResistantToType.determine_pkmn_set client T ∩
        PokemonWeakToType.determine_pkmn_set client T = ∅ ∧
      PokemonResistantToType.determine_pkmn_set client T ∩
        PokemonNeutralToType.determine_pkmn_set client T = ∅ ∧
      PokemonWeakToType.determine_pkmn_set client T ∩
        PokemonNeutralToType.determine_pkmn_set client T = ∅) ∧
    PokemonResistantToType.determine_pkmn_set client T ∪
        PokemonWeakToType.determine_pkmn_set client T ∪
        PokemonNeutralToType.determine_pkmn_set client T = universeAll client ∧
    (∀ p, 0 < immuneCount client T p →
      p ∈ PokemonResistantToType.determine_pkmn_set client T ∧
        p ∉ PokemonWeakToType.determine_pkmn_set client T ∧
        p ∉ PokemonNeutralToType.determine_pkmn_set client T) := by
  refine ⟨⟨?_, ?_, ?_⟩, ?_, ?_⟩
  · rw [Finset.eq_empty_iff_forall_not_mem]
    intro p hp
    rw [Finset.mem_inter, mem_resistant, mem_weak] at hp
    omega
  · rw [Finset.eq_empty_iff_forall_not_mem]
    intro p hp
    rw [Finset.mem_inter, mem_resistant, mem_neutral] at hp
    omega
  · rw [Finset.eq_empty_iff_forall_not_mem]
    intro p hp
    rw [Finset.mem_inter, mem_weak, mem_neutral] at hp
    omega
  · apply Finset.ext
    intro p
    rw [Finset.mem_union, Finset.mem_union, mem_resistant, mem_weak, mem_neutral]
    constructor
    · rintro ((⟨hu, _⟩ | ⟨hu, _⟩) | ⟨hu, _⟩)
      · exact relationUniverse_subset_universeAll hwf hu
      · exact relationUniverse_subset_universeAll hwf hu
      · exact hu
    · intro hp
      rcases Nat.eq_zero_or_pos (immuneCount client T p) with hic | hic
      · rcases Nat.lt_trichotomy (weakCount client T p) (resistCount client T p)
          with hlt | heq | hgt
        · exact Or.inl (Or.inl ⟨resistCount_pos_mem_relationUniverse (by omega), Or.inr hlt⟩)
        · exact Or.inr ⟨hp, hic, heq⟩
        · exact Or.inl (Or.inr ⟨weakCount_pos_mem_relationUniverse (by omega), hic, hgt⟩)
      · exact Or.inl (Or.inl ⟨immuneCount_pos_mem_relationUniverse hic, Or.inl hic⟩)
  · intro p hic
    refine ⟨mem_resistant.mpr ⟨immuneCount_pos_mem_relationUniverse hic, Or.inl hic⟩, ?_, ?_⟩
    · rw [mem_weak]
      omega
    · rw [mem_neutral]
      omega

/-- Witness for `C1_partition` at the concrete `exampleClient`. -/
theorem C1_partition_witness :
    (PokemonResistantToType.determine_pkmn_set exampleClient "normal" ∩
        PokemonWeakToType.determine_pkmn_set exampleClient "normal" = ∅ ∧
      PokemonResistantToType.determine_pkmn_set exampleClient "normal" ∩
        PokemonNeutralToType.determine_pkmn_set exampleClient "normal" = ∅ ∧
      PokemonWeakToType.determine_pkmn_set exampleClient "normal" ∩
        PokemonNeutralToType.determine_pkmn_set exampleClient "normal" = ∅) ∧
    PokemonResistantToType.determine_pkmn_set exampleClient "normal" ∪
        PokemonWeakToType.determine_pkmn_set exampleClient "normal" ∪
        PokemonNeutralToType.determine_pkmn_set exampleClient "normal" =
      universeAll exampleClient ∧
    (∀ p, 0 < immuneCount exampleClient "normal" p →
      p ∈ PokemonResistantToType.determine_pkmn_set exampleClient "normal" ∧
        p ∉ PokemonWeakToType.determine_pkmn_set exampleClient "normal" ∧
        p ∉ PokemonNeutralToType.determine_pkmn_set exampleClient "normal") :=
  C1_partition exampleClient "normal" (by decide)

/-- C9: the float test `(0.5 ** resist_count) * (2.0 ** weak_count) < 1.0`
used by `ResistantToType` is, for counts below 100 (well inside the exact
range of double powers of two), exactly the integer comparison
`resist_count > weak_count`; consequently for every non-immune entity the
three classifications decide membership by the sign of
`weak_count - resist_count`. -/
theorem C9_float_int_equivalence (resist_count weak_count : ℕ)
    (hr : resist_count < 100) (hw : weak_count < 100) :
    (modifier resist_count weak_count < 1 ↔ weak_count < resist_count) ∧
    (∀ client T p, immuneCount client T p = 0 →
      (p ∈ PokemonResistantToType.determine_pkmn_set client T ↔
        p ∈ relationUniverse client T ∧ weakCount client T p < resistCount client T p) ∧
      (p ∈ PokemonWeakToType.determine_pkmn_set client T ↔
        p ∈ relationUniverse client T ∧ resistCount client T p < weakCount client T p) ∧
      (p ∈ PokemonNeutralToType.determine_pkmn_set client T ↔
        p ∈ universeAll client ∧ weakCount client T p = resistCount client T p)) := by
  refine ⟨modifier_lt_one, ?_⟩
  intro client T p hic
  refine ⟨?_, ?_, ?_⟩
  · rw [mem_resistant, hic]
    simp
  · rw [mem_weak, hic]
    simp
  · rw [mem_neutral, hic]
    simp

theorem statIndex_inv {stat_name : String} {index : ℕ}
    (h : STAT_NAME_TO_INDICES stat_name = some index) :
    index < 6 ∧ statNames.getD index "" = stat_name := by
  rw [STAT_NAME_TO_INDICES] at h
  split_ifs at h with h1 h2 h3 h4 h5 h6 <;>
    first
      | (injection h with h0; subst h0;
          exact ⟨by norm_num, by simp_all [statNames]⟩)
      | exact Option.noConfusion h

/-- Witness for `C9_float_int_equivalence` at counts 1 and 0. -/
theorem C9_float_int_equivalence_witness :
    ((modifier 1 0 < 1 ↔ 0 < 1) ∧
    (∀ client T p, immuneCount client T p = 0 →
      (p ∈ PokemonResistantToType.determine_pkmn_set client T ↔
        p ∈ relationUniverse client T ∧ weakCount client T p < resistCount client T p) ∧
      (p ∈ PokemonWeakToType.determine_pkmn_set client T ↔
        p ∈ relationUniverse client T ∧ resistCount client T p < weakCount client T p) ∧
      (p ∈ PokemonNeutralToType.determine_pkmn_set client T ↔
        p ∈ universeAll client ∧ weakCount client T p = resistCount client T p))) :=
  C9_float_int_equivalence 1 0 (by decide) (by decide)


theorem getD_map_name : ∀ (l : List PokemonStat) (j : ℕ),
    (l.map PokemonStat.name).getD j "" = (l.getD j ⟨"", 0⟩).name
  | [], _ => rfl
  | _ :: _, 0 => rfl
  | _ :: l, j + 1 => getD_map_name l j

theorem stats_name_at {sp : Pokemon} (hwf : sp.stats.map PokemonStat.name = statNames)
    (j : ℕ) : (sp.stats.getD j ⟨"", 0⟩).name = statNames.getD j "" := by
  rw [← getD_map_name, hwf]

theorem statNames_getD_inj : ∀ a < 6, ∀ b < 6,
    statNames.getD a "" = statNames.getD b "" → a = b := by decide

theorem is_highest_iff {sp : Pokemon} {stat_name : String} {index : ℕ}
    (hidx6 : index < 6) (hname : statNames.getD index "" = stat_name)
    (hwf : sp.stats.map PokemonStat.name = statNames) :
    (is_highest stat_name index sp = true ↔
      ∀ j : Fin 6, (j : ℕ) ≠ index →
        (sp.stats.getD j ⟨"", 0⟩).base_stat < (sp.stats.getD index ⟨"", 0⟩).base_stat) := by
  have hlen : sp.stats.length = 6 := by
    have h := congrArg List.length hwf
    simpa [statNames] using h
  simp only [is_highest]
  rw [List.all_eq_true]
  constructor
  · intro h j hj
    have hjlen : (j : ℕ) < sp.stats.length := by omega
    have hmem : sp.stats.getD (j : ℕ) ⟨"", 0⟩ ∈ sp.stats := by
      rw [List.getD_eq_getElem _ _ hjlen]
      exact List.getElem_mem hjlen
    have hx := h _ hmem
    have hne : (sp.stats.getD (j : ℕ) ⟨"", 0⟩).name ≠ stat_name := by
      rw [stats_name_at hwf _, ← hname]
      intro hcontra
      exact hj (statNames_getD_inj _ j.isLt _ hidx6 hcontra)
    rw [if_neg hne] at hx
    simp only [gt_iff_lt, Bool.not_eq_true', Bool.or_eq_false_iff,
      decide_eq_false_iff_not, not_lt, beq_eq_false_iff_ne, ne_eq] at hx
    omega
  · intro h stat hstat
    obtain ⟨j, hjlen, hstatj⟩ := List.getElem_of_mem hstat
    have hj6 : j < 6 := by omega
    have hgetDj : sp.stats.getD j ⟨"", 0⟩ = stat := by
      rw [List.getD_eq_getElem _ _ hjlen, hstatj]
    by_cases hje : j = index
    · have hns : stat.name = stat_name := by
        rw [← hgetDj, stats_name_at hwf _, hje, hname]
      rw [if_pos hns]
    · have hne : stat.name ≠ stat_name := by
        rw [← hgetDj, stats_name_at hwf _, ← hname]
        intro hcontra
        exact hje (statNames_getD_inj _ hj6 _ hidx6 hcontra)
      rw [if_neg hne]
      have hcmp := h ⟨j, hj6⟩ (by simpa using hje)
      rw [hgetDj] at hcmp
      simp only [gt_iff_lt, Bool.not_eq_true', Bool.or_eq_false_iff,
        decide_eq_false_iff_not, not_lt, beq_eq_false_iff_ne, ne_eq]
      omega

/-- C3: an entity is in the `HighestBaseStat(s)` set iff its own base value
for `s` is strictly greater than each of the same entity's other five base
stat values; a tie with any other own stat disqualifies it (a per-entity
self-comparison).  The catalog is assumed to key entities by unique name
and the species to carry the six canonical stats in canonical order, as
PokeAPI data does. -/
theorem C3_highest_base_stat (all_species : List Pokemon) (stat_name : String)
    (index : ℕ) (hidx : STAT_NAME_TO_INDICES stat_name = some index)
    (hnodup : (all_species.map Pokemon.name).Nodup)
    (sp : Pokemon) (hsp : sp ∈ all_species)
    (hwf : sp.stats.map PokemonStat.name = statNames) :
    ∃ l, highest_base_stats all_species stat_name = some l ∧
      (sp.name ∈ l ↔ ∀ j : Fin 6, (j : ℕ) ≠ index →
        (sp.stats.getD j ⟨"", 0⟩).base_stat < (sp.stats.getD index ⟨"", 0⟩).base_stat) := by
  obtain ⟨hi6, hname⟩ := statIndex_inv hidx
  refine ⟨(all_species.filter (fun species => is_highest stat_name index species)).map
      Pokemon.name, ?_, ?_⟩
  · rw [highest_base_stats, hidx]
    rfl
  have hmemiff : sp.name ∈
      ((all_species.filter (fun species => is_highest stat_name index species)).map
        Pokemon.name) ↔ is_highest stat_name index sp = true := by
    rw [List.mem_map]
    constructor
    · rintro ⟨sp', hsp', hnm⟩
      rw [List.mem_filter] at hsp'
      have heq : sp' = sp := List.inj_on_of_nodup_map hnodup hsp'.1 hsp hnm
      rw [← heq]
      exact hsp'.2
    · intro h
      exact ⟨sp, List.mem_filter.mpr ⟨hsp, h⟩, rfl⟩
  rw [hmemiff]
  exact is_highest_iff hi6 hname hwf

/-- Witness for `C3_highest_base_stat`: the one-species catalog, stat `hp`. -/
theorem C3_highest_base_stat_witness :
    ∃ l, highest_base_stats exampleCatalog "hp" = some l ∧
      (examplePokemon.name ∈ l ↔ ∀ j : Fin 6, (j : ℕ) ≠ 0 →
        (examplePokemon.stats.getD j ⟨"", 0⟩).base_stat <
          (examplePokemon.stats.getD 0 ⟨"", 0⟩).base_stat) :=
  C3_highest_base_stat exampleCatalog "hp" 0 (by decide) (by decide)
    examplePokemon (by decide) (by decide)

theorem collectPaths_len (node : EvoNode) (cur p : List String)
    (hp : p ∈ collectPaths node cur) : cur.length + 1 ≤ p.length := by
  match node with
  | .node name children =>
    rw [collectPaths] at hp
    split at hp
    · simp only [List.mem_singleton] at hp
      subst hp
      simp
    · rw [List.mem_flatMap] at hp
      obtain ⟨c, _, hcp⟩ := hp
      have ih := collectPaths_len c.1 (cur ++ [name]) p hcp
      simp only [List.length_append, List.length_singleton] at ih
      omega
termination_by sizeOf node
decreasing_by
  simp only [EvoNode.node.sizeOf_spec]
  have hs := List.sizeOf_lt_of_mem c.2
  omega

theorem collectPaths_ne_nil (node : EvoNode) (cur : List String) :
    collectPaths node cur ≠ [] := by
  match node with
  | .node name children =>
    rw [collectPaths]
    split
    · simp
    · rename_i h
      match hc : children with
      | [] => simp at h
      | c :: cs =>
        simp only [List.attach_cons, List.flatMap_cons, ne_eq]
        intro hcontra
        exact collectPaths_ne_nil c (cur ++ [name]) (List.append_eq_nil.mp hcontra).1
termination_by sizeOf node
decreasing_by
  simp only [EvoNode.node.sizeOf_spec, List.cons.sizeOf_spec]
  omega

theorem headI_mem_of_ne_nil {α : Type} [Inhabited α] {l : List α} (h : l ≠ []) :
    l.headI ∈ l := by
  cases l with
  | nil => exact absurd rfl h
  | cons a t => simp [List.headI]

theorem evolution_roles_single (name : String) :
    evolution_roles (.node name []) = ⟨∅, ∅, ∅, {name}⟩ := by
  rw [evolution_roles, collectPaths]
  simp [List.headI]

theorem collectPaths_root_cons_len {name : String} {c : EvoNode} {cs : List EvoNode}
    {p : List String} (hp : p ∈ collectPaths (.node name (c :: cs)) []) :
    2 ≤ p.length := by
  rw [collectPaths] at hp
  rw [if_neg (by simp)] at hp
  rw [List.mem_flatMap] at hp
  obtain ⟨x, _, hpx⟩ := hp
  have h := collectPaths_len x.1 ([] ++ [name]) p hpx
  simpa using h

theorem evolution_roles_cons (name : String) (c : EvoNode) (cs : List EvoNode) :
    evolution_roles (.node name (c :: cs)) =
      ⟨firstsOfPaths (collectPaths (.node name (c :: cs)) []),
       middlesOfPaths (collectPaths (.node name (c :: cs)) []),
       finalsOfPaths (collectPaths (.node name (c :: cs)) []), ∅⟩ := by
  rw [evolution_roles]
  rw [if_neg]
  rintro ⟨-, h2⟩
  have hne := collectPaths_ne_nil (.node name (c :: cs)) []
  have hmem := headI_mem_of_ne_nil hne
  have hlen := collectPaths_root_cons_len hmem
  omega

theorem mem_firstsOfPaths {paths : List (List String)} {s : String} :
    s ∈ firstsOfPaths paths ↔ ∃ p ∈ paths, p.headI = s := by
  induction paths with
  | nil => simp [firstsOfPaths]
  | cons p ps ih =>
    simp only [firstsOfPaths, List.foldr_cons, Finset.mem_insert, List.mem_cons] at ih ⊢
    constructor
    · rintro (h | h)
      · exact ⟨p, Or.inl rfl, h.symm⟩
      · obtain ⟨q, hq, hqs⟩ := ih.mp h
        exact ⟨q, Or.inr hq, hqs⟩
    · rintro ⟨q, (rfl | hq), hqs⟩
      · exact Or.inl hqs.symm
      · exact Or.inr (ih.mpr ⟨q, hq, hqs⟩)

theorem mem_finalsOfPaths {paths : List (List String)} {s : String} :
    s ∈ finalsOfPaths paths ↔ ∃ p ∈ paths, p.getLastD "" = s := by
  induction paths with
  | nil => simp [finalsOfPaths]
  | cons p ps ih =>
    simp only [finalsOfPaths, List.foldr_cons, Finset.mem_insert, List.mem_cons] at ih ⊢
    constructor
    · rintro (h | h)
      · exact ⟨p, Or.inl rfl, h.symm⟩
      · obtain ⟨q, hq, hqs⟩ := ih.mp h
        exact ⟨q, Or.inr hq, hqs⟩
    · rintro ⟨q, (rfl | hq), hqs⟩
      · exact Or.inl hqs.symm
      · exact Or.inr (ih.mpr ⟨q, hq, hqs⟩)

theorem mem_middlesOfPaths {paths : List (List String)} {s : String} :
    s ∈ middlesOfPaths paths ↔
      ∃ p ∈ paths, 2 < p.length ∧ s ∈ (p.drop 1).dropLast := by
  induction paths with
  | nil => simp [middlesOfPaths]
  | cons p ps ih =>
    simp only [middlesOfPaths, List.foldr_cons, Finset.mem_union, List.mem_cons] at ih ⊢
    constructor
    · rintro (h | h)
      · split at h
        · rename_i hl
          rw [List.mem_toFinset] at h
          exact ⟨p, Or.inl rfl, hl, h⟩
        · exact absurd h (Finset.not_mem_empty s)
      · obtain ⟨q, hq, hql, hqs⟩ := ih.mp h
        exact ⟨q, Or.inr hq, hql, hqs⟩
    · rintro ⟨q, (rfl | hq), hql, hqs⟩
      · refine Or.inl ?_
        rw [if_pos hql, List.mem_toFinset]
        exact hqs
      · exact Or.inr (ih.mpr ⟨q, hq, hql, hqs⟩)

theorem mem_evolution_roles (chain : EvoNode) (s : String) :
    (s ∈ (evolution_roles chain).no_evolutions ↔
      chain.evolves_to = [] ∧ chain.species = s) ∧
    (s ∈ (evolution_roles chain).first ↔
      chain.evolves_to ≠ [] ∧ ∃ p ∈ collectPaths chain [], p.headI = s) ∧
    (s ∈ (evolution_roles chain).middle ↔
      chain.evolves_to ≠ [] ∧
        ∃ p ∈ collectPaths chain [], 2 < p.length ∧ s ∈ (p.drop 1).dropLast) ∧
    (s ∈ (evolution_roles chain).final ↔
      chain.evolves_to ≠ [] ∧ ∃ p ∈ collectPaths chain [], p.getLastD "" = s) := by
  match chain with
  | .node name [] =>
    rw [evolution_roles_single]
    simp [EvoNode.species, EvoNode.evolves_to, eq_comm]
  | .node name (c :: cs) =>
    rw [evolution_roles_cons]
    simp only [EvoNode.evolves_to, ne_eq, List.cons_ne_nil, not_false_eq_true, true_and,
      EvoNode.species, Finset.not_mem_empty, false_iff, not_and, reduceCtorEq]
    refine ⟨by simp, mem_firstsOfPaths, mem_middlesOfPaths, mem_finalsOfPaths⟩

theorem mem_classify_foldl (chains : List EvoNode) (acc : EvoRoles) (s : String) :
    (s ∈ (chains.foldl roleStep acc).no_evolutions ↔
      s ∈ acc.no_evolutions ∨ ∃ c ∈ chains, s ∈ (evolution_roles c).no_evolutions) ∧
    (s ∈ (chains.foldl roleStep acc).first ↔
      s ∈ acc.first ∨ ∃ c ∈ chains, s ∈ (evolution_roles c).first) ∧
    (s ∈ (chains.foldl roleStep acc).middle ↔
      s ∈ acc.middle ∨ ∃ c ∈ chains, s ∈ (evolution_roles c).middle) ∧
    (s ∈ (chains.foldl roleStep acc).final ↔
      s ∈ acc.final ∨ ∃ c ∈ chains, s ∈ (evolution_roles c).final) := by
  induction chains generalizing acc with
  | nil => simp
  | cons c cs ih =>
    obtain ⟨ih1, ih2, ih3, ih4⟩ := ih (roleStep acc c)
    simp only [List.foldl_cons, List.mem_cons]
    rw [ih1, ih2, ih3, ih4]
    simp only [roleStep, Finset.mem_union, exists_eq_or_imp]
    exact ⟨or_assoc, or_assoc, or_assoc, or_assoc⟩

/-- C4: over any catalog of evolution chains, the role classification is
exactly the union of per-chain contributions: a single-node chain puts its
species in the non-evolving set (and nothing in the other three); any other
chain puts the first element of each of its root-to-leaf paths in the
first-stage set, the last element of each path in the final-stage set, and
the interior elements of each path of length > 2 in the middle-stage set.
Entities landing in several role sets are kept in all of them. -/
theorem C4_evolution_role_classification (chains : List EvoNode) (s : String) :
    (s ∈ (classify_evolution_roles chains).no_evolutions ↔
      ∃ chain ∈ chains, chain.evolves_to = [] ∧ chain.species = s) ∧
    (s ∈ (classify_evolution_roles chains).first ↔
      ∃ chain ∈ chains, chain.evolves_to ≠ [] ∧
        ∃ p ∈ collectPaths chain [], p.headI = s) ∧
    (s ∈ (classify_evolution_roles chains).middle ↔
      ∃ chain ∈ chains, chain.evolves_to ≠ [] ∧
        ∃ p ∈ collectPaths chain [], 2 < p.length ∧ s ∈ (p.drop 1).dropLast) ∧
    (s ∈ (classify_evolution_roles chains).final ↔
      ∃ chain ∈ chains, chain.evolves_to ≠ [] ∧
        ∃ p ∈ collectPaths chain [], p.getLastD "" = s) := by
  obtain ⟨h1, h2, h3, h4⟩ := mem_classify_foldl chains ⟨∅, ∅, ∅, ∅⟩ s
  simp only [Finset.not_mem_empty, false_or] at h1 h2 h3 h4
  rw [classify_evolution_roles]
  rw [h1, h2, h3, h4]
  refine ⟨?_, ?_, ?_, ?_⟩
  · exact exists_congr fun c => and_congr_right fun _ => (mem_evolution_roles c s).1
  · exact exists_congr fun c => and_congr_right fun _ => (mem_evolution_roles c s).2.1
  · exact exists_congr fun c => and_congr_right fun _ => (mem_evolution_roles c s).2.2.1
  · exact exists_congr fun c => and_congr_right fun _ => (mem_evolution_roles c s).2.2.2

theorem suggest_eval (solver : PokegridSolver) (row_idx col_idx : ℤ) (top_n : ℕ)
    (A B : Finset String)
    (hr0 : 0 ≤ row_idx) (hr2 : row_idx ≤ 2) (hc0 : 0 ≤ col_idx) (hc2 : col_idx ≤ 2)
    (hA : solver.row_constraints.getD row_idx.toNat defaultConstraint solver.client = .ok A)
    (hB : solver.column_constraints.getD col_idx.toNat defaultConstraint solver.client =
      .ok B) :
    solver.suggest_for_constraint row_idx col_idx top_n =
      .ok ((solver.strategy (solver.possible_pokemon A B)).take top_n,
        (solver.possible_pokemon A B).card) := by
  simp only [PokegridSolver.suggest_for_constraint]
  rw [if_neg (by omega), if_neg (by omega), hA, hB]

theorem rank_options_empty (rng : ℕ → ℚ) :
    RandomPokegridStrategy.rank_options rng ∅ = [] := by
  rw [RandomPokegridStrategy.rank_options]
  simp [Finset.sort_empty]

/-- C2: for in-range cell indices whose two constraints evaluate to the sets
`A` and `B`, `suggest_for_constraint` returns exactly the first `top_n`
entries of the strategy's ranking of the candidate pool
`A ∩ B - selected_pokemon`, paired with that pool's size; with row set
`{"a","b","c"}`, column set `{"b","c","d"}` and nothing chosen the pool is
`{"b","c"}` of size 2; and an empty pool yields `([], 0)` rather than a
failure. -/
theorem C2_suggest_for_cell (solver : PokegridSolver) (row_idx col_idx : ℤ) (top_n : ℕ)
    (A B : Finset String)
    (hr0 : 0 ≤ row_idx) (hr2 : row_idx ≤ 2) (hc0 : 0 ≤ col_idx) (hc2 : col_idx ≤ 2)
    (hA : solver.row_constraints.getD row_idx.toNat defaultConstraint solver.client = .ok A)
    (hB : solver.column_constraints.getD col_idx.toNat defaultConstraint solver.client =
      .ok B) :
    solver.suggest_for_constraint row_idx col_idx top_n =
      .ok ((solver.strategy (solver.possible_pokemon A B)).take top_n,
        (solver.possible_pokemon A B).card) ∧
    (A = {"a", "b", "c"} → B = {"b", "c", "d"} → solver.selected_pokemon = ∅ →
      solver.possible_pokemon A B = {"b", "c"} ∧ (solver.possible_pokemon A B).card = 2) ∧
    (∀ rng, solver.strategy = RandomPokegridStrategy.rank_options rng →
      solver.possible_pokemon A B = ∅ →
      solver.suggest_for_constraint row_idx col_idx top_n = .ok ([], 0)) := by
  refine ⟨suggest_eval solver row_idx col_idx top_n A B hr0 hr2 hc0 hc2 hA hB, ?_, ?_⟩
  · rintro rfl rfl hsel
    rw [PokegridSolver.possible_pokemon, hsel]
    refine ⟨by decide, by decide⟩
  · intro rng hstrat hempty
    rw [suggest_eval solver row_idx col_idx top_n A B hr0 hr2 hc0 hc2 hA hB, hempty,
      hstrat, rank_options_empty]
    simp

/-- Witness for `C2_suggest_for_cell` on the concrete `exampleSolver`. -/
theorem C2_suggest_for_cell_witness :
    exampleSolver.suggest_for_constraint 0 0 5 =
      .ok ((exampleSolver.strategy
          (exampleSolver.possible_pokemon {"a", "b", "c"} {"b", "c", "d"})).take 5,
        (exampleSolver.possible_pokemon {"a", "b", "c"} {"b", "c", "d"}).card) ∧
    ({"a", "b", "c"} = ({"a", "b", "c"} : Finset String) →
      {"b", "c", "d"} = ({"b", "c", "d"} : Finset String) →
      exampleSolver.selected_pokemon = ∅ →
      exampleSolver.possible_pokemon {"a", "b", "c"} {"b", "c", "d"} = {"b", "c"} ∧
        (exampleSolver.possible_pokemon {"a", "b", "c"} {"b", "c", "d"}).card = 2) ∧
    (∀ rng, exampleSolver.strategy = RandomPokegridStrategy.rank_options rng →
      exampleSolver.possible_pokemon {"a", "b", "c"} {"b", "c", "d"} = ∅ →
      exampleSolver.suggest_for_constraint 0 0 5 = .ok ([], 0)) :=
  C2_suggest_for_cell exampleSolver 0 0 5 {"a", "b", "c"} {"b", "c", "d"}
    (by norm_num) (by norm_num) (by norm_num) (by norm_num) rfl rfl

/-- C5: `choose_pokemon` adds the name to the chosen set, is idempotent,
never removes anything (the set only grows, and `suggest_for_constraint`
leaves it untouched), and every later suggestion's candidate pool excludes
the chosen name. -/
theorem C5_choose_pokemon (solver : PokegridSolver) (name : String) :
    name ∈ (solver.choose_pokemon name).selected_pokemon ∧
    (solver.choose_pokemon name).choose_pokemon name = solver.choose_pokemon name ∧
    solver.selected_pokemon ⊆ (solver.choose_pokemon name).selected_pokemon ∧
    (∀ row_idx col_idx top_n,
      (((solver.choose_pokemon name).suggest_for_constraintS row_idx col_idx
        top_n).2).selected_pokemon = (solver.choose_pokemon name).selected_pokemon) ∧
    (∀ rowSet colSet,
      name ∉ (solver.choose_pokemon name).possible_pokemon rowSet colSet) := by
  refine ⟨Finset.mem_insert_self name _, ?_, Finset.subset_insert name _,
    fun _ _ _ => rfl, ?_⟩
  · simp [PokegridSolver.choose_pokemon, Finset.insert_idem]
  · intro rowSet colSet
    simp [PokegridSolver.possible_pokemon, PokegridSolver.choose_pokemon]

/-- C6: the random strategy returns a scored permutation of its input: the
output length equals the input size, the output names are exactly the input
names, each appearing exactly once, and the list is sorted by descending
score with ties broken by ascending name. -/
theorem C6_random_strategy (rng : ℕ → ℚ) (available_pokemon : Finset String)
    (hne : available_pokemon.Nonempty) :
    (RandomPokegridStrategy.rank_options rng available_pokemon).length =
      available_pokemon.card ∧
    (∀ name, name ∈ (RandomPokegridStrategy.rank_options rng available_pokemon).map
      Prod.fst ↔ name ∈ available_pokemon) ∧
    (∀ name ∈ available_pokemon,
      ((RandomPokegridStrategy.rank_options rng available_pokemon).map Prod.fst).count
        name = 1) ∧
    (RandomPokegridStrategy.rank_options rng available_pokemon).Sorted rankLE := by
  simp only [RandomPokegridStrategy.rank_options]
  have hmapfst :
      (((available_pokemon.sort (· ≤ ·)).enum).map
        (fun x => (x.2, rng x.1))).map Prod.fst = available_pokemon.sort (· ≤ ·) := by
    rw [List.map_map]
    exact List.enum_map_snd _
  have hperm := List.perm_insertionSort rankLE
    (((available_pokemon.sort (· ≤ ·)).enum).map (fun x => (x.2, rng x.1)))
  have hpermfst := hperm.map Prod.fst
  rw [hmapfst] at hpermfst
  refine ⟨?_, ?_, ?_, ?_⟩
  · rw [List.length_insertionSort, List.length_map, List.enum_length,
      Finset.length_sort]
  · intro name
    rw [hpermfst.mem_iff, Finset.mem_sort]
  · intro name hname
    rw [hpermfst.count_eq]
    exact List.count_eq_one_of_mem (Finset.sort_nodup _ _)
      ((Finset.mem_sort _).mpr hname)
  · exact List.sorted_insertionSort rankLE _

/-- Witness for `C6_random_strategy` on the set `{"b","a"}` with a constant
stream. -/
theorem C6_random_strategy_witness :
    (RandomPokegridStrategy.rank_options (fun _ => 0) {"b", "a"}).length =
      ({"b", "a"} : Finset String).card ∧
    (∀ name, name ∈ (RandomPokegridStrategy.rank_options (fun _ => 0) {"b", "a"}).map
      Prod.fst ↔ name ∈ ({"b", "a"} : Finset String)) ∧
    (∀ name ∈ ({"b", "a"} : Finset String),
      ((RandomPokegridStrategy.rank_options (fun _ => 0) {"b", "a"}).map Prod.fst).count
        name = 1) ∧
    (RandomPokegridStrategy.rank_options (fun _ => 0) {"b", "a"}).Sorted rankLE :=
  C6_random_strategy (fun _ => 0) {"b", "a"} ⟨"a", by decide⟩

/-- C7: constructing the solver fails unless exactly 3 row and 3 column
constraints are given (2 rows with 3 columns fails with the row message);
`suggest_for_constraint` rejects any out-of-range cell index with a
`ValueError` raised before any constraint is evaluated (the error holds for
every solver, whatever its constraints would return), row index 3 in
particular; and with in-range indices and successfully evaluating
constraints the call succeeds. -/
theorem C7_validation :
    (∀ rows cols strategy client,
      (∃ s, PokegridSolver.init rows cols strategy client = .ok s) ↔
        rows.length = 3 ∧ cols.length = 3) ∧
    (∀ r1 r2 cols strategy client, PokegridSolver.init [r1, r2] cols strategy client =
      .error "Did not provide 3 row constraints") ∧
    (∀ (solver : PokegridSolver) (row_idx col_idx : ℤ) (top_n : ℕ),
      (row_idx < 0 ∨ 2 < row_idx ∨ col_idx < 0 ∨ 2 < col_idx) →
      ∃ msg, solver.suggest_for_constraint row_idx col_idx top_n = .error msg) ∧
    (∀ (solver : PokegridSolver) (top_n : ℕ),
      solver.suggest_for_constraint 3 0 top_n =
        .error "row_idx needs to be between 0 and 2") ∧
    (∀ (solver : PokegridSolver) (row_idx col_idx : ℤ) (top_n : ℕ) (A B : Finset String),
      0 ≤ row_idx → row_idx ≤ 2 → 0 ≤ col_idx → col_idx ≤ 2 →
      solver.row_constraints.getD row_idx.toNat defaultConstraint solver.client = .ok A →
      solver.column_constraints.getD col_idx.toNat defaultConstraint solver.client =
        .ok B →
      ∃ res, solver.suggest_for_constraint row_idx col_idx top_n = .ok res) := by
  refine ⟨?_, ?_, ?_, ?_, ?_⟩
  · intro rows cols strategy client
    rw [PokegridSolver.init]
    split_ifs with h1 h2
    · constructor
      · rintro ⟨s, hs⟩
        exact hs.elim
      · rintro ⟨hl, -⟩
        exact absurd hl h1
    · constructor
      · rintro ⟨s, hs⟩
        exact hs.elim
      · rintro ⟨-, hl⟩
        exact absurd hl h2
    · exact ⟨fun _ => ⟨not_not.mp h1, not_not.mp h2⟩, fun _ => ⟨_, rfl⟩⟩
  · intro r1 r2 cols strategy client
    rw [PokegridSolver.init, if_pos (by simp)]
  · intro solver row_idx col_idx top_n h
    rw [PokegridSolver.suggest_for_constraint]
    by_cases hrow : row_idx < 0 ∨ row_idx > 2
    · rw [if_pos hrow]
      exact ⟨_, rfl⟩
    · rw [if_neg hrow, if_pos (by omega)]
      exact ⟨_, rfl⟩
  · intro solver top_n
    rw [PokegridSolver.suggest_for_constraint, if_pos (by norm_num)]
  · intro solver row_idx col_idx top_n A B hr0 hr2 hc0 hc2 hA hB
    exact ⟨_, suggest_eval solver row_idx col_idx top_n A B hr0 hr2 hc0 hc2 hA hB⟩

/-- Witness for `C7_validation`: its validation clauses at the concrete
`exampleSolver`. -/
theorem C7_validation_witness :
    exampleSolver.suggest_for_constraint 3 0 5 =
      .error "row_idx needs to be between 0 and 2" :=
  C7_validation.2.2.2.1 exampleSolver 5

/-- C10: `suggest_for_constraint` is read-only — the state-passing form
returns the solver unchanged — and `choose_pokemon` changes only the chosen
set, inserting the given name and leaving the constraints, strategy and
client untouched. -/
theorem C10_suggest_frame (solver : PokegridSolver) (row_idx col_idx : ℤ) (top_n : ℕ)
    (name : String) :
    (solver.suggest_for_constraintS row_idx col_idx top_n).2 = solver ∧
    (solver.choose_pokemon name).row_constraints = solver.row_constraints ∧
    (solver.choose_pokemon name).column_constraints = solver.column_constraints ∧
    (solver.choose_pokemon name).strategy = solver.strategy ∧
    (solver.choose_pokemon name).client = solver.client ∧
    (solver.choose_pokemon name).selected_pokemon = insert name solver.selected_pokemon :=
  ⟨rfl, rfl, rfl, rfl, rfl, rfl⟩

theorem log2_eq_of {q : ℚ} {e : ℤ} (h0 : 0 < q) (h1 : (2:ℚ) ^ e ≤ q)
    (h2 : q < (2:ℚ) ^ (e + 1)) : Int.log 2 q = e := by
  have hb : 1 < 2 := by norm_num
  have hle : e ≤ Int.log 2 q := (Int.zpow_le_iff_le_log hb h0).mp (by exact_mod_cast h1)
  have hlt : Int.log 2 q < e + 1 := (Int.lt_zpow_iff_log_lt hb h0).mp (by exact_mod_cast h2)
  omega

theorem roundD_eval (q r : ℚ) (e n m : ℤ) (h0 : 0 < q)
    (h1 : (2:ℚ) ^ e ≤ q) (h2 : q < (2:ℚ) ^ (e + 1))
    (hn : ⌊q * (2:ℚ) ^ (52 - e)⌋ = n)
    (hm : (if 1 / 2 < q * (2:ℚ) ^ (52 - e) - (n : ℚ) then n + 1
        else if q * (2:ℚ) ^ (52 - e) - (n : ℚ) < 1 / 2 then n
        else if n % 2 = 0 then n else n + 1) = m)
    (hr : (m : ℚ) * (2:ℚ) ^ (e - 52) = r) :
    roundD q = r := by
  rw [roundD, if_neg h0.ne', if_neg (not_lt.mpr h0.le)]
  simp only [roundPos]
  rw [log2_eq_of h0 h1 h2, hn, hm, hr]

theorem roundD_0254 : roundD (254 / 1000) = 571957152676053 / 2251799813685248 :=
  roundD_eval _ _ (-2) 4575657221408423 4575657221408424 (by norm_num) (by norm_num)
    (by norm_num) (by norm_num) (by norm_num) (by norm_num)

theorem roundD_36 : roundD 36 = 36 :=
  roundD_eval _ _ 5 5066549580791808 5066549580791808 (by norm_num) (by norm_num)
    (by norm_num) (by norm_num) (by norm_num) (by norm_num)

theorem ftinches2decimeters_3_0 :
    ftinches2decimeters 3 0 = 5147614374084477 / 562949953421312 := by
  rw [ftinches2decimeters]
  have h36 : ((3:ℚ) * 12 + 0) = 36 := by norm_num
  rw [h36, roundD_36, roundD_0254]
  have hp : (36:ℚ) * (571957152676053 / 2251799813685248) =
      5147614374084477 / 562949953421312 := by norm_num
  rw [hp]
  exact roundD_eval _ _ 3 5147614374084477 5147614374084477 (by norm_num) (by norm_num)
    (by norm_num) (by norm_num) (by norm_num) (by norm_num)

theorem roundD_invconst :
    roundD (3937007874015748 / 1000000000000000) = 277042299912063 / 70368744177664 :=
  roundD_eval _ _ 1 8865353597186015 8865353597186016 (by norm_num) (by norm_num)
    (by norm_num) (by norm_num) (by norm_num) (by norm_num)

/-- C8: converting 3 feet 0 inches to decimeters with `ftinches2decimeters`
and back with `decimeters2ftinches` reproduces exactly 3 feet 0.0 inches:
under IEEE-754 double rounding the product `9.144 * 3.937007874015748`
rounds to exactly `36.0` (the exact rational product is `36 + 2^-49·ε` with
`ε` far below half an ulp). -/
theorem C8_unit_roundtrip : decimeters2ftinches (ftinches2decimeters 3 0) = (3, 0) := by
  rw [ftinches2decimeters_3_0, decimeters2ftinches]
  rw [roundD_invconst]
  have hprod : (5147614374084477 / 562949953421312 : ℚ) *
      (277042299912063 / 70368744177664) =
      1426106925256758137163233346051 / 39614081257132168796771975168 := by norm_num
  rw [hprod]
  have htot : roundD (1426106925256758137163233346051 / 39614081257132168796771975168) =
      36 :=
    roundD_eval _ _ 5 5066549580791808 5066549580791808 (by norm_num) (by norm_num)
      (by norm_num) (by norm_num) (by norm_num) (by norm_num)
  rw [htot]
  have hfeet : ⌊(36:ℚ) / 12⌋ = 3 := by norm_num
  rw [hfeet]
  have hz : (36:ℚ) - ((3:ℤ) : ℚ) * 12 = 0 := by norm_num
  rw [hz]
  have hr0 : roundD 0 = 0 := by rw [roundD, if_pos rfl]
  rw [hr0, if_neg (by norm_num)]
